import Mathlib

set_option linter.unnecessarySeqFocus false

/-!
Verification development for `jupyter_kernel_exec.py`, a CLI client that
resolves a human-supplied reference to exactly one running Jupyter kernel
session and drives the kernel's execute protocol over a websocket.

Python strings are embedded as `List Char`.  Python dictionaries coming from
the network are embedded as structures whose fields are `Option`s: `none`
stands for an absent key (and, where the source immediately discards
non-string values, also for a value of the wrong runtime type, since the two
are treated identically by the code).  Python sets are embedded as lists;
every consumer in the source either tests membership or folds an
order-insensitive `any` over the set, so multiplicity and order are
irrelevant.  Network and subprocess effects are embedded by passing the
observed responses in as explicit arguments.
-/

/-- `startsWithL t s` holds when `t` is a prefix of `s`
(Python `s.startswith(t)`). -/
def startsWithL : List Char → List Char → Bool
  | [], _ => true
  | _ :: _, [] => false
  | a :: as, b :: bs => if a = b then startsWithL as bs else false

/-- `endsWithL t s` holds when `t` is a suffix of `s`
(Python `s.endswith(t)`). -/
def endsWithL (t s : List Char) : Bool :=
  startsWithL t.reverse s.reverse

/-- `hasSubstr needle hay` embeds Python's `needle in hay` on strings. -/
def hasSubstr (needle : List Char) : List Char → Bool
  | [] => needle.isEmpty
  | c :: rest => startsWithL needle (c :: rest) || hasSubstr needle rest

/-- `os.path.basename` for POSIX paths: everything after the last `/`. -/
def basename (p : List Char) : List Char :=
  (p.reverse.takeWhile (fun c => c != '/')).reverse

/-- `os.path.splitext` for POSIX paths: split at the final dot of the final
path component, except that a final component consisting of leading dots
only (such as `.ipynb`) is not split. -/
def splitext (p : List Char) : List Char × List Char :=
  let b := basename p
  if b.contains '.' then
    let ext := '.' :: (b.reverse.takeWhile (fun c => c != '.')).reverse
    let stemB := b.take (b.length - ext.length)
    if stemB.any (fun c => c != '.') then
      (p.take (p.length - ext.length), ext)
    else (p, [])
  else (p, [])

/-- First normalization stage: `value.replace("\\", "/")`. -/
def backslashToSlash (v : List Char) : List Char :=
  v.map (fun c => if c = '\\' then '/' else c)

/-- Whether the whole string `s` is matched by the pattern
`-jvsc-[^.]+(?=\.ipynb$)` followed by the looked-ahead text: `s` must be
`-jvsc-<mid>` with `<mid>` nonempty and dot-free, immediately followed by
`.ipynb` at the end of the string (Python's `$` also matches just before a
single trailing newline). -/
def jvscTailMatch (s : List Char) : Bool :=
  startsWithL ("-jvsc-".toList) s &&
    (let rest := s.drop 6
     (endsWithL (".ipynb".toList) rest &&
        (let mid := rest.take (rest.length - 6)
         (!mid.isEmpty) && mid.all (fun c => c != '.'))) ||
     (endsWithL (".ipynb\n".toList) rest &&
        (let mid := rest.take (rest.length - 7)
         (!mid.isEmpty) && mid.all (fun c => c != '.'))))

/-- The tail kept by a successful `jvscTailMatch`: the looked-ahead
`.ipynb`, with the trailing newline when present. -/
def jvscKeptTail (s : List Char) : List Char :=
  if endsWithL ("\n".toList) s then (".ipynb\n".toList) else (".ipynb".toList)

/-- `re.sub(r"-jvsc-[^.]+(?=\.ipynb$)", "", s)`: scan left to right for the
leftmost position whose suffix matches; the match necessarily extends to the
final `.ipynb`, so at most one replacement occurs. -/
def stripJvsc : List Char → List Char
  | [] => []
  | c :: rest =>
    if jvscTailMatch (c :: rest) then jvscKeptTail (c :: rest)
    else c :: stripJvsc rest

/-- `[0-9a-f]` with `re.IGNORECASE`. -/
def isHexDigit (c : Char) : Bool :=
  (decide ('0' ≤ c) && decide (c ≤ '9')) ||
    (decide ('a' ≤ c) && decide (c ≤ 'f')) ||
    (decide ('A' ≤ c) && decide (c ≤ 'F'))

/-- Consume exactly `n` hex digits, returning the rest of the input. -/
def hexRun : Nat → List Char → Option (List Char)
  | 0, s => some s
  | _ + 1, [] => none
  | n + 1, c :: rest => if isHexDigit c then hexRun n rest else none

/-- Consume a single `-`, returning the rest of the input. -/
def dashRun : List Char → Option (List Char)
  | [] => none
  | c :: rest => if c = '-' then some rest else none

/-- Consume a `-` then `n` hex digits for each `n` in `ns`. -/
def runSegs : List Nat → List Char → Option (List Char)
  | [], s => some s
  | n :: ns, s => (dashRun s).bind (fun s1 => (hexRun n s1).bind (runSegs ns))

/-- Consume `-xxxxxxxx-xxxx-xxxx-xxxx-xxxxxxxxxxxx` (37 characters). -/
def uuidChain (s : List Char) : Option (List Char) :=
  runSegs [8, 4, 4, 4, 12] s

/-- `u` is exactly a dash-led UUID-shaped suffix, as in the source pattern
`-[0-9a-f]{8}(?:-[0-9a-f]{4}){3}-[0-9a-f]{12}` (case-insensitive). -/
def uuidLike (u : List Char) : Bool :=
  match uuidChain u with
  | some rest => rest.isEmpty
  | none => false

/-- Whether the whole string `s` is matched by the UUID pattern followed by
the looked-ahead `\.ipynb$` text (again `$` also accepts one trailing
newline). -/
def uuidTailMatch (s : List Char) : Bool :=
  match uuidChain s with
  | some rest => rest = (".ipynb".toList) || rest = (".ipynb\n".toList)
  | none => false

/-- `re.sub` for the UUID pattern, leftmost scan as for `stripJvsc`. -/
def stripUuid : List Char → List Char
  | [] => []
  | c :: rest =>
    if uuidTailMatch (c :: rest) then jvscKeptTail (c :: rest)
    else c :: stripUuid rest

/-- `_normalize_session_value`: rewrite backslashes to `/`, strip a
`-jvsc-<opaque>` suffix before a final `.ipynb`, then strip a UUID-shaped
suffix before a final `.ipynb`. -/
def normalizeSessionValue (v : List Char) : List Char :=
  stripUuid (stripJvsc (backslashToSlash v))

/-- The `kernel` value of a session object: a non-dict value, or a dict
whose `id` is either a string or absent/non-string (`none`).  An absent
`kernel` key defaults to `{}` in the source and is embedded as
`dict none`. -/
inductive KernelField where
  | notDict : KernelField
  | dict : Option (List Char) → KernelField
deriving DecidableEq, Repr

/-- A session object as consumed by the source: only `kernel`, `path` and
`name` are interpreted; `none` for `path`/`name` stands for an absent or
non-string value. -/
structure SessionData where
  kernel : KernelField
  path : Option (List Char)
  name : Option (List Char)
deriving DecidableEq, Repr

/-- The candidates contributed by one of the `path`/`name` fields in
`_session_strings`: the raw value, its basename, the normalized value and
its basename, skipping empty candidates and skipped entirely when the field
is absent, non-string or empty. -/
def fieldStrings : Option (List Char) → List (List Char)
  | none => []
  | some raw =>
    if raw.isEmpty then []
    else
      let normalized := normalizeSessionValue raw
      ([raw, basename raw, normalized, basename normalized]).filter
        (fun c => !c.isEmpty)

/-- `_session_strings`: the session's matchable string set (embedded as a
list; all consumers are order- and multiplicity-insensitive). -/
def sessionStrings (s : SessionData) : List (List Char) :=
  fieldStrings s.path ++ fieldStrings s.name

/-- `_notebook_like_match`. -/
def notebookLikeMatch (query candidate : List Char) : Bool :=
  let qse := splitext (basename query)
  let cse := splitext (basename candidate)
  if qse.1 = [] then false
  else if qse.2 ≠ [] ∧ qse.2.map Char.toLower ≠ cse.2.map Char.toLower then
    false
  else decide (cse.1 = qse.1) || startsWithL (qse.1 ++ ['-']) cse.1

/-- `_session_matches_substring`. -/
def sessionMatchesSubstring (s : SessionData) (kernelFor : List Char) : Bool :=
  (sessionStrings s).any
    (fun v => hasSubstr kernelFor v || notebookLikeMatch kernelFor v)

/-- `_session_matches_regex`, over the search function of a compiled
pattern. -/
def sessionMatchesRegex (s : SessionData) (search : List Char → Bool) : Bool :=
  (sessionStrings s).any search

/-- A discovered server as used by `resolve_kernel_target`:
`{base_url, token}` (the `root_dir` field is never read there). -/
structure ServerInfo where
  base_url : List Char
  token : Option (List Char)
deriving DecidableEq, Repr

/-- One element of the JSON array returned by `GET /api/sessions`: a mapping
(session object) or some non-mapping value, which the source silently
drops. -/
inductive SessionEntry where
  | dict : SessionData → SessionEntry
  | nonDict : SessionEntry
deriving DecidableEq, Repr

/-- The observed outcome of one server's session query: a JSON list, a JSON
body that is not a list, or a network/transport error carrying the
exception's message. -/
inductive SessionsResponse where
  | ok : List SessionEntry → SessionsResponse
  | notList : SessionsResponse
  | netErr : List Char → SessionsResponse
deriving DecidableEq, Repr

/-- `_query_sessions`: raise on network error, raise
`Unexpected /api/sessions response shape.` on a non-list body, drop
non-mapping entries of a list body. -/
def querySessionsResult :
    SessionsResponse → Except (List Char) (List SessionData)
  | SessionsResponse.netErr m => Except.error m
  | SessionsResponse.notList =>
    Except.error ("Unexpected /api/sessions response shape.".toList)
  | SessionsResponse.ok entries =>
    Except.ok (entries.filterMap (fun e =>
      match e with
      | SessionEntry.dict s => some s
      | SessionEntry.nonDict => none))

/-- A resolvable Session Record built by `_collect_records`. -/
structure SessionRecord where
  kernel_id : List Char
  server_base_url : List Char
  server_token : Option (List Char)
  session : SessionData
deriving DecidableEq, Repr

/-- The records one server contributes in `_collect_records`: sessions whose
`kernel` is a mapping holding a non-empty string `id`. -/
def recordsOfServer (srv : ServerInfo) (sessions : List SessionData) :
    List SessionRecord :=
  sessions.filterMap (fun s =>
    match s.kernel with
    | KernelField.notDict => none
    | KernelField.dict none => none
    | KernelField.dict (some kid) =>
      if kid.isEmpty then none
      else some ⟨kid, srv.base_url, srv.token, s⟩)

/-- `_collect_records` over the servers paired with their observed session
query outcomes: a failing server contributes one `"<base_url>: <cause>"`
error entry; a succeeding one contributes its records, in order. -/
def collectRecords :
    List (ServerInfo × SessionsResponse) →
      List SessionRecord × List (List Char)
  | [] => ([], [])
  | (srv, resp) :: rest =>
    let acc := collectRecords rest
    match querySessionsResult resp with
    | Except.error m => (acc.1, (srv.base_url ++ (": ".toList) ++ m) :: acc.2)
    | Except.ok sessions => (recordsOfServer srv sessions ++ acc.1, acc.2)

/-- The cause string recorded when a server's query fails, `none` when the
query succeeds. -/
def queryFailure (resp : SessionsResponse) : Option (List Char) :=
  match querySessionsResult resp with
  | Except.error m => some m
  | Except.ok _ => none

/-- Python truthiness of an optional string (`if kernel_id:`). -/
def truthy : Option (List Char) → Bool
  | none => false
  | some s => !s.isEmpty

/-- `_record_line`, the per-candidate diagnostic line printed on multiple
matches. -/
def recordLine (r : SessionRecord) : List Char :=
  r.kernel_id ++ (" | ".toList) ++ r.server_base_url ++
    (" | path=".toList) ++ (r.session.path.getD []) ++
    (" | name=".toList) ++ (r.session.name.getD [])

/-- The failures of `resolve_kernel_target`, each a `sys.exit(1)` with the
printed diagnostics it carries. -/
inductive ResolveError where
  | noSessions : ResolveError
  | missingKernelArg : ResolveError
  | invalidRegex : List Char → ResolveError
  | noMatch : List Char → ResolveError
  | multipleMatches : List (List Char) → ResolveError
deriving DecidableEq, Repr

/-- The tail of `resolve_kernel_target` shared by all three match kinds:
zero matches fail with the kind-specific message, several matches fail
listing every candidate, exactly one match returns its
`(server_base_url, server_token, kernel_id)`. -/
def finalizeMatches (ms : List SessionRecord) (noMatchMsg : List Char) :
    Except ResolveError (List Char × Option (List Char) × List Char) :=
  match ms with
  | [] => Except.error (ResolveError.noMatch noMatchMsg)
  | [r] => Except.ok (r.server_base_url, r.server_token, r.kernel_id)
  | _ :: _ :: _ =>
    Except.error (ResolveError.multipleMatches (ms.map recordLine))

/-- `resolve_kernel_target`.  Regex compilation is passed in as `compile`,
mapping a pattern to either the compile error's message or the compiled
pattern's search function. -/
def resolveKernelTarget
    (compile : List Char → Except (List Char) (List Char → Bool))
    (servers : List (ServerInfo × SessionsResponse))
    (kernel_id kernel_match : Option (List Char)) :
    Except ResolveError (List Char × Option (List Char) × List Char) :=
  let records := (collectRecords servers).1
  if records.isEmpty then Except.error ResolveError.noSessions
  else if truthy kernel_id then
    let kid := kernel_id.getD []
    finalizeMatches (records.filter (fun r => r.kernel_id = kid))
      (("No sessions matched kernel id: ".toList) ++ kid)
  else if truthy kernel_match then
    let km := kernel_match.getD []
    if startsWithL ("re:".toList) km then
      match compile (km.drop 3) with
      | Except.error e =>
        Except.error (ResolveError.invalidRegex
          (("Invalid regex: ".toList) ++ e))
      | Except.ok search =>
        finalizeMatches
          (records.filter (fun r => sessionMatchesRegex r.session search))
          (("No sessions matched regex: ".toList) ++ km.drop 3)
    else
      finalizeMatches
        (records.filter (fun r => sessionMatchesSubstring r.session km))
        (("No sessions matched substring: ".toList) ++ km)
  else Except.error ResolveError.missingKernelArg

/-- The filtered match set `resolve_kernel_target` computes: `none` when no
matching is performed at all (neither selector supplied, or the regex does
not compile). -/
def resolveMatchSet
    (compile : List Char → Except (List Char) (List Char → Bool))
    (servers : List (ServerInfo × SessionsResponse))
    (kernel_id kernel_match : Option (List Char)) :
    Option (List SessionRecord) :=
  let records := (collectRecords servers).1
  if truthy kernel_id then
    some (records.filter (fun r => r.kernel_id = kernel_id.getD []))
  else if truthy kernel_match then
    let km := kernel_match.getD []
    if startsWithL ("re:".toList) km then
      match compile (km.drop 3) with
      | Except.error _ => none
      | Except.ok search =>
        some (records.filter (fun r => sessionMatchesRegex r.session search))
    else
      some (records.filter (fun r => sessionMatchesSubstring r.session km))
  else none

/-- One entry of the parsed `jupyter server list --jsonlist` output;
`none` stands for an absent or non-string value. -/
structure RawServerItem where
  url : Option (List Char)
  token : Option (List Char)
  root_dir : Option (List Char)
deriving DecidableEq, Repr

/-- A server record produced by `discover_servers`. -/
structure DiscoveredServer where
  base_url : List Char
  token : Option (List Char)
  root_dir : Option (List Char)
deriving DecidableEq, Repr

/-- `_normalize_base_url`: `base_url.rstrip("/")`. -/
def rstripSlash (s : List Char) : List Char :=
  (s.reverse.dropWhile (fun c => c == '/')).reverse

/-- The per-item loop of `discover_servers`, over the already-parsed server
list (the subprocess invocation and `_parse_server_list` are the source of
the `items` argument): entries without a non-empty string `url` are
skipped; a non-empty string `token` is kept, anything else falls back to
the caller-supplied token. -/
def discoverServers (tokenFallback : Option (List Char)) :
    List RawServerItem → List DiscoveredServer
  | [] => []
  | it :: rest =>
    match it.url with
    | none => discoverServers tokenFallback rest
    | some u =>
      if u.isEmpty then discoverServers tokenFallback rest
      else
        let normalizedToken :=
          match it.token with
          | some t => if t.isEmpty then tokenFallback else some t
          | none => tokenFallback
        ⟨rstripSlash u, normalizedToken, it.root_dir⟩ ::
          discoverServers tokenFallback rest

/-- The token rule as the claim states it: a non-empty string token from the
discovery output takes precedence, anything else (absent, non-string —
embedded as `none` — or empty) is replaced by the fallback. -/
def resolveTokenSpec (tokenField tokenFallback : Option (List Char)) :
    Option (List Char) :=
  match tokenField with
  | some t => if t = [] then tokenFallback else some t
  | none => tokenFallback

/-- Declarative per-item description of `discover_servers`. -/
def discoveredItemSpec (tokenFallback : Option (List Char))
    (it : RawServerItem) : Option DiscoveredServer :=
  match it.url with
  | some u =>
    if u ≠ [] then
      some ⟨rstripSlash u, resolveTokenSpec it.token tokenFallback,
        it.root_dir⟩
    else none
  | none => none

/-- The `data` payload of an `execute_result`/`display_data` content dict:
its optional `text/plain` entry, and `dumped` standing for the opaque
`json.dumps(payload)` rendering the source prints as a fallback. -/
structure Payload where
  textPlain : Option (List Char)
  dumped : List Char
deriving DecidableEq, Repr

/-- The `content` dict of a received kernel message; only the keys the
source reads are interpreted, `raw` stands for the opaque rendering printed
by `print(content)`. -/
structure MsgContent where
  text : Option (List Char)
  dataPayload : Option Payload
  traceback : Option (List (List Char))
  execution_state : Option (List Char)
  raw : List Char
deriving DecidableEq, Repr

/-- A decoded websocket message: `header.msg_type` (as read from the top
level by the source via `data.get("msg_type")`) and
`parent_header.msg_id`. -/
structure KernelMsg where
  msg_type : Option (List Char)
  parent_id : Option (List Char)
  content : MsgContent
deriving DecidableEq, Repr

/-- One element of the `outputs` list of the JSON summary:
`{"type": ..., "content": content}`. -/
structure OutputItem where
  type : List Char
  content : MsgContent
deriving DecidableEq, Repr

/-- The mutable state of the reply loop of `execute_code`: the collected
`outputs`, the `had_error` flag, and the sequence of texts written to the
console (each `print` call's payload, newline handling elided). -/
structure LoopState where
  outputs : List OutputItem
  hadError : Bool
  printed : List (List Char)
deriving DecidableEq, Repr

/-- `content.get("data", {})` when the key is absent: an empty dict, whose
`json.dumps` rendering is `\x7b\x7d`. -/
def emptyPayload : Payload := ⟨none, ("\x7b\x7d".toList)⟩

/-- One iteration of the reply loop of `execute_code` on a decoded message:
the updated state and whether the loop `break`s (completion signal). -/
def stepMsg (msgId : List Char) (jsonOutput resultOnly : Bool)
    (st : LoopState) (m : KernelMsg) : LoopState × Bool :=
  if m.msg_type ≠ some ("status".toList) ∧ m.parent_id ≠ some msgId then
    (st, false)
  else if m.msg_type = some ("stream".toList) then
    if resultOnly then (st, false)
    else
      let text := m.content.text.getD []
      if jsonOutput then
        ({ st with outputs := st.outputs ++ [⟨("stream".toList), m.content⟩] },
          false)
      else if text ≠ [] then
        ({ st with printed := st.printed ++ [text] }, false)
      else (st, false)
  else if m.msg_type = some ("execute_result".toList) ∨
      m.msg_type = some ("display_data".toList) then
    if resultOnly ∧ m.msg_type ≠ some ("execute_result".toList) then
      (st, false)
    else
      let payload := m.content.dataPayload.getD emptyPayload
      if jsonOutput then
        ({ st with outputs := st.outputs ++ [⟨m.msg_type.getD [], m.content⟩] },
          false)
      else
        match payload.textPlain with
        | some t =>
          if t ≠ [] then ({ st with printed := st.printed ++ [t] }, false)
          else ({ st with printed := st.printed ++ [payload.dumped] }, false)
        | none => ({ st with printed := st.printed ++ [payload.dumped] }, false)
  else if m.msg_type = some ("error".toList) then
    let st1 := { st with hadError := true }
    if jsonOutput then
      ({ st1 with outputs := st1.outputs ++ [⟨("error".toList), m.content⟩] },
        false)
    else
      let tb := m.content.traceback.getD []
      if tb ≠ [] then
        ({ st1 with printed :=
            st1.printed ++ [List.intercalate ("\n".toList) tb] }, false)
      else ({ st1 with printed := st1.printed ++ [m.content.raw] }, false)
  else if m.msg_type = some ("status".toList) then
    if m.content.execution_state = some ("idle".toList) ∧
        m.parent_id = some msgId then
      (st, true)
    else (st, false)
  else (st, false)

/-- The reply loop over a list of decoded messages: the final state and
whether the completion signal was seen (when `false`, the loop would still
be blocked in `recv` — in reality ending in a timeout exception and no JSON
summary). -/
def loopRun (msgId : List Char) (jsonOutput resultOnly : Bool) :
    LoopState → List KernelMsg → LoopState × Bool
  | st, [] => (st, false)
  | st, m :: rest =>
    let s := stepMsg msgId jsonOutput resultOnly st m
    if s.2 then (s.1, true)
    else loopRun msgId jsonOutput resultOnly s.1 rest

/-- The aggregated JSON summary of `execute_code`: `status` and
`outputs` (the `kernel_id`/`msg_id` echo fields are pass-through and
elided). -/
structure Outcome where
  status : List Char
  outputs : List OutputItem
deriving DecidableEq, Repr

/-- The Execution Outcome `execute_code` reports in `--json` mode, `none`
when the message stream ends without the completion signal (the run raises
instead of reporting). -/
def executeOutcome (msgId : List Char) (resultOnly : Bool)
    (msgs : List KernelMsg) : Option Outcome :=
  let r := loopRun msgId true resultOnly ⟨[], false, []⟩ msgs
  if r.2 then
    some ⟨if r.1.hadError then ("error".toList) else ("ok".toList),
      r.1.outputs⟩
  else none

/-- The completion signal: a `status` message with execution state `idle`
whose correlation parent is the sent message id. -/
def isCompletion (msgId : List Char) (m : KernelMsg) : Bool :=
  decide (m.msg_type = some ("status".toList) ∧
    m.content.execution_state = some ("idle".toList) ∧
    m.parent_id = some msgId)

/-- An error-type message attributed to this request. -/
def attributedError (msgId : List Char) (m : KernelMsg) : Bool :=
  decide (m.msg_type = some ("error".toList) ∧ m.parent_id = some msgId)

/-- The messages the loop actually receives: the longest prefix strictly
before the first completion signal. -/
def receivedBefore (msgId : List Char) : List KernelMsg → List KernelMsg
  | [] => []
  | m :: rest =>
    if isCompletion msgId m then []
    else m :: receivedBefore msgId rest

/-- One observed receive on the duplex channel: a decoded message, or an
exception (receive timeout, transport failure, or undecodable frame). -/
inductive RecvEvent where
  | msg : KernelMsg → RecvEvent
  | exc : RecvEvent
deriving DecidableEq, Repr

/-- The operations `execute_code` performs on the websocket. -/
inductive WsOp where
  | openConn : WsOp
  | sendReq : WsOp
  | recvMsg : WsOp
  | closeConn : WsOp
deriving DecidableEq, Repr

/-- How a run of `execute_code` ends once the channel is open: normal
completion, an exception raised inside the reply loop (re-raised after the
`finally`), or an exception raised by the send of the execute request,
which happens before the `try` block. -/
inductive ExecEnd where
  | completed : ExecEnd
  | raised : ExecEnd
  | sendFailed : ExecEnd
deriving DecidableEq, Repr

/-- The websocket operations of the reply loop over the observed receive
events.  An exhausted event list stands for a receive that never returns a
frame: with the configured timeout applied to every receive, it raises. -/
def loopTrace (msgId : List Char) (jsonOutput resultOnly : Bool)
    (st : LoopState) : List RecvEvent → List WsOp × ExecEnd
  | [] => ([WsOp.recvMsg], ExecEnd.raised)
  | RecvEvent.exc :: _ => ([WsOp.recvMsg], ExecEnd.raised)
  | RecvEvent.msg m :: rest =>
    let s := stepMsg msgId jsonOutput resultOnly st m
    if s.2 then ([WsOp.recvMsg], ExecEnd.completed)
    else
      let t := loopTrace msgId jsonOutput resultOnly s.1 rest
      (WsOp.recvMsg :: t.1, t.2)

/-- The full websocket operation trace of `execute_code` after dependency
checks: open the channel, send the execute request (outside the `try`
block; `sendOk = false` observes the send raising), then run the reply loop
inside `try ... finally ws.close()`. -/
def execTrace (msgId : List Char) (jsonOutput resultOnly : Bool)
    (sendOk : Bool) (events : List RecvEvent) : List WsOp × ExecEnd :=
  if sendOk then
    let t := loopTrace msgId jsonOutput resultOnly ⟨[], false, []⟩ events
    ([WsOp.openConn, WsOp.sendReq] ++ t.1 ++ [WsOp.closeConn], t.2)
  else ([WsOp.openConn, WsOp.sendReq], ExecEnd.sendFailed)

/-- Claim C4: for every list of servers with their observed query outcomes,
`_collect_records` records exactly one `"<base_url>: <cause>"` error entry
per failing server (in server order) and still returns the records of every
succeeding server, preserving server iteration order and, within a server,
response order. -/
theorem c4_collect_records_isolation :
    ∀ l : List (ServerInfo × SessionsResponse),
      (collectRecords l).1 = l.flatMap (fun p =>
          match querySessionsResult p.2 with
          | Except.ok s => recordsOfServer p.1 s
          | Except.error _ => []) ∧
      (collectRecords l).2 = l.filterMap (fun p =>
          (queryFailure p.2).map
            (fun m => p.1.base_url ++ (": ".toList) ++ m)) := by
  intro l
  induction l with
  | nil => simp [collectRecords]
  | cons p rest ih =>
    obtain ⟨srv, resp⟩ := p
    cases h : querySessionsResult resp with
    | error m =>
      simp [collectRecords, h, queryFailure, ih.1, ih.2]
    | ok s =>
      simp [collectRecords, h, queryFailure, ih.1, ih.2]

/-- Claim C10: `discover_servers` substitutes the caller-supplied fallback
token whenever a discovered item's token is absent, non-string (embedded as
`none`) or empty, while a non-empty string token takes precedence; item
order and the other fields follow `discoveredItemSpec`. -/
theorem c10_discover_servers_token_fallback :
    ∀ (fb : Option (List Char)) (items : List RawServerItem),
      discoverServers fb items = items.filterMap (discoveredItemSpec fb) ∧
      resolveTokenSpec none fb = fb ∧
      resolveTokenSpec (some []) fb = fb ∧
      (∀ t : List Char, t ≠ [] → resolveTokenSpec (some t) fb = some t) := by
  intro fb items
  refine ⟨?_, rfl, by simp [resolveTokenSpec], ?_⟩
  · induction items with
    | nil => simp [discoverServers]
    | cons it rest ih =>
      cases hu : it.url with
      | none => simp [discoverServers, discoveredItemSpec, hu, ih]
      | some u =>
        by_cases hue : u = []
        · simp [discoverServers, discoveredItemSpec, hu, hue, ih]
        · cases ht : it.token with
          | none =>
            simp [discoverServers, discoveredItemSpec, resolveTokenSpec,
              hu, hue, ht, ih, List.isEmpty_iff]
          | some t =>
            by_cases hte : t = [] <;>
              simp [discoverServers, discoveredItemSpec, resolveTokenSpec,
                hu, hue, ht, hte, ih, List.isEmpty_iff]
  · intro t ht
    simp [resolveTokenSpec, ht]

/-- Witness for C10 at concrete inputs: a non-empty discovered token wins,
an empty one falls back. -/
theorem c10_discover_servers_token_fallback_witness :
    resolveTokenSpec (some ("tok".toList)) (some ("fb".toList)) =
      some ("tok".toList) ∧
    discoverServers (some ("fb".toList))
        [⟨some ("http://a/".toList), some [], none⟩] =
      [⟨("http://a".toList), some ("fb".toList), none⟩] := by
  constructor
  · exact (c10_discover_servers_token_fallback (some ("fb".toList)) []).2.2.2
      ("tok".toList) (by decide)
  · have h := (c10_discover_servers_token_fallback (some ("fb".toList))
      [⟨some ("http://a/".toList), some [], none⟩]).1
    rw [h]
    decide

/-- Claim C5 (counterexample): the claim says the channel is closed on
every exit path after it is opened, including an exception raised at any
point before the completion signal; but `ws.send` runs before the
`try`/`finally`, so a send exception exits with the channel opened and
never closed. -/
theorem c5_counterexample_send_raises :
    (execTrace ("m".toList) true false false []).2 = ExecEnd.sendFailed ∧
    WsOp.openConn ∈ (execTrace ("m".toList) true false false []).1 ∧
    WsOp.closeConn ∉ (execTrace ("m".toList) true false false []).1 := by
  refine ⟨rfl, by decide, by decide⟩

/-- Claim C5 (amended): once the execute request has been sent and the
reply loop entered, `execute_code` closes the websocket as its last channel
operation on every exit path — normal completion, an exception mid-loop,
and a receive timeout alike. -/
theorem c5_close_on_loop_exit :
    ∀ (msgId : List Char) (jo ro : Bool) (events : List RecvEvent),
      ((execTrace msgId jo ro true events).1).getLast? =
        some WsOp.closeConn ∧
      WsOp.openConn ∈ (execTrace msgId jo ro true events).1 := by
  intro msgId jo ro events
  constructor
  · show (([WsOp.openConn, WsOp.sendReq] ++
      (loopTrace msgId jo ro ⟨[], false, []⟩ events).1 ++
      [WsOp.closeConn]).getLast?) = some WsOp.closeConn
    rw [List.getLast?_concat]
  · show WsOp.openConn ∈ ([WsOp.openConn, WsOp.sendReq] ++
      (loopTrace msgId jo ro ⟨[], false, []⟩ events).1 ++
      [WsOp.closeConn])
    simp

/-- Claim C2: a received message whose type is not `status` and whose
correlation parent is not the sent message id is discarded with no side
effects — the loop state (outputs, error flag, console prints) is unchanged
and the loop does not terminate; deleting such a message anywhere from the
stream leaves the whole reply loop's result unchanged. -/
theorem c2_foreign_messages_discarded :
    ∀ (msgId : List Char) (jo ro : Bool) (m : KernelMsg),
      m.msg_type ≠ some ("status".toList) →
      m.parent_id ≠ some msgId →
      (∀ st : LoopState, stepMsg msgId jo ro st m = (st, false)) ∧
      (∀ (pre post : List KernelMsg) (st : LoopState),
        loopRun msgId jo ro st (pre ++ m :: post) =
          loopRun msgId jo ro st (pre ++ post)) := by
  intro msgId jo ro m h1 h2
  have hstep : ∀ st : LoopState, stepMsg msgId jo ro st m = (st, false) := by
    intro st
    unfold stepMsg
    rw [if_pos ⟨h1, h2⟩]
  refine ⟨hstep, ?_⟩
  intro pre post st
  induction pre generalizing st with
  | nil => simp [loopRun, hstep]
  | cons p rest ih =>
    simp only [List.cons_append, loopRun]
    by_cases hd : (stepMsg msgId jo ro st p).2
    · simp [hd]
    · simp [hd, ih]

/-- Witness for C2: a `stream` message carrying text but correlated to a
different request changes nothing, at the initial loop state. -/
theorem c2_foreign_messages_discarded_witness :
    stepMsg ("mid".toList) true false ⟨[], false, []⟩
        ⟨some ("stream".toList), some ("other".toList),
          ⟨some ("hi".toList), none, none, none, []⟩⟩ =
      (⟨[], false, []⟩, false) ∧
    loopRun ("mid".toList) true false ⟨[], false, []⟩
        ([] ++ ⟨some ("stream".toList), some ("other".toList),
          ⟨some ("hi".toList), none, none, none, []⟩⟩ :: []) =
      loopRun ("mid".toList) true false ⟨[], false, []⟩ ([] ++ []) := by
  have h := c2_foreign_messages_discarded ("mid".toList) true false
    ⟨some ("stream".toList), some ("other".toList),
      ⟨some ("hi".toList), none, none, none, []⟩⟩ (by decide) (by decide)
  exact ⟨h.1 ⟨[], false, []⟩, h.2 [] [] ⟨[], false, []⟩⟩

/-- Helper: the reply loop breaks exactly on the completion signal. -/
theorem stepMsg_done_iff (msgId : List Char) (jo ro : Bool) (st : LoopState)
    (m : KernelMsg) : (stepMsg msgId jo ro st m).2 = isCompletion msgId m := by
  have d1 : ("stream".toList) ≠ ("status".toList) := by decide
  have d2 : ("execute_result".toList) ≠ ("status".toList) := by decide
  have d3 : ("display_data".toList) ≠ ("status".toList) := by decide
  have d4 : ("error".toList) ≠ ("status".toList) := by decide
  have d5 : ("status".toList) ≠ ("stream".toList) := by decide
  have d6 : ("status".toList) ≠ ("execute_result".toList) := by decide
  have d7 : ("status".toList) ≠ ("display_data".toList) := by decide
  have d8 : ("status".toList) ≠ ("error".toList) := by decide
  unfold stepMsg isCompletion
  (try dsimp only)
  split_ifs <;> (repeat' split) <;> (try simp_all +decide) <;> intros <;>
    simp_all +decide

/-- Helper: on the completion signal the step leaves the state unchanged
and breaks. -/
theorem stepMsg_completion (msgId : List Char) (jo ro : Bool) (st : LoopState)
    (m : KernelMsg) (h : isCompletion msgId m = true) :
    stepMsg msgId jo ro st m = (st, true) := by
  rw [isCompletion, decide_eq_true_eq] at h
  obtain ⟨hS, hI, hP⟩ := h
  have d5 : ("status".toList) ≠ ("stream".toList) := by decide
  have d6 : ("status".toList) ≠ ("execute_result".toList) := by decide
  have d7 : ("status".toList) ≠ ("display_data".toList) := by decide
  have d8 : ("status".toList) ≠ ("error".toList) := by decide
  simp [stepMsg, hS, hI, hP, d5, d6, d7, d8]

/-- Helper: in `--json` mode one step flips `had_error` exactly on an
attributed error message. -/
theorem stepMsg_hadError (msgId : List Char) (ro : Bool) (st : LoopState)
    (m : KernelMsg) :
    ((stepMsg msgId true ro st m).1).hadError =
      (st.hadError || attributedError msgId m) := by
  have d1 : ("stream".toList) ≠ ("error".toList) := by decide
  have d2 : ("execute_result".toList) ≠ ("error".toList) := by decide
  have d3 : ("display_data".toList) ≠ ("error".toList) := by decide
  have d4 : ("status".toList) ≠ ("error".toList) := by decide
  have d5 : ("error".toList) ≠ ("status".toList) := by decide
  unfold stepMsg attributedError
  (try dsimp only)
  split_ifs <;> (repeat' split) <;> (try simp_all +decide) <;> intros <;>
    simp_all +decide

/-- Helper: one step only ever appends to `outputs`. -/
theorem stepMsg_outputs_sub (msgId : List Char) (jo ro : Bool) (st : LoopState)
    (m : KernelMsg) :
    ∃ l, ((stepMsg msgId jo ro st m).1).outputs = st.outputs ++ l := by
  unfold stepMsg
  (try dsimp only)
  split_ifs <;> (repeat' split) <;>
    first
      | exact ⟨_, rfl⟩
      | exact ⟨[], by simp⟩

/-- Helper: in `--json` mode an attributed error message appends exactly an
`error` Output Item. -/
theorem stepMsg_error_out (msgId : List Char) (ro : Bool) (st : LoopState)
    (m : KernelMsg) (h : attributedError msgId m = true) :
    ((stepMsg msgId true ro st m).1).outputs =
      st.outputs ++ [⟨("error".toList), m.content⟩] := by
  rw [attributedError, decide_eq_true_eq] at h
  obtain ⟨hE, hP⟩ := h
  have d5 : ("error".toList) ≠ ("status".toList) := by decide
  have d1 : ("error".toList) ≠ ("stream".toList) := by decide
  have d2 : ("error".toList) ≠ ("execute_result".toList) := by decide
  have d3 : ("error".toList) ≠ ("display_data".toList) := by decide
  simp [stepMsg, hE, hP, d5, d1, d2, d3]

/-- Helper: `had_error` at the end of the loop, as a function of the
attributed error messages received before the completion signal. -/
theorem loopRun_hadError (msgId : List Char) (ro : Bool) :
    ∀ (msgs : List KernelMsg) (st : LoopState),
      ((loopRun msgId true ro st msgs).1).hadError =
        (st.hadError ||
          ((receivedBefore msgId msgs).any
            (fun m => attributedError msgId m))) := by
  intro msgs
  induction msgs with
  | nil => intro st; simp [loopRun, receivedBefore]
  | cons m rest ih =>
    intro st
    cases hc : isCompletion msgId m with
    | true =>
      simp [loopRun, stepMsg_completion msgId true ro st m hc,
        receivedBefore, hc]
    | false =>
      have ha : attributedError msgId m = false ∨
          attributedError msgId m = true := by
        cases attributedError msgId m <;> simp
      simp only [loopRun, receivedBefore, hc, if_false, Bool.false_eq_true,
        if_neg]
      simp [stepMsg_done_iff, hc, ih, stepMsg_hadError, Bool.or_assoc,
        receivedBefore]

/-- Helper: the loop only ever appends to `outputs`. -/
theorem loopRun_outputs_sub (msgId : List Char) (jo ro : Bool) :
    ∀ (msgs : List KernelMsg) (st : LoopState),
      ∃ l, ((loopRun msgId jo ro st msgs).1).outputs = st.outputs ++ l := by
  intro msgs
  induction msgs with
  | nil => intro st; exact ⟨[], by simp [loopRun]⟩
  | cons m rest ih =>
    intro st
    obtain ⟨l1, h1⟩ := stepMsg_outputs_sub msgId jo ro st m
    by_cases hd : (stepMsg msgId jo ro st m).2 = true
    · exact ⟨l1, by simp [loopRun, hd, h1]⟩
    · obtain ⟨l2, h2⟩ := ih ((stepMsg msgId jo ro st m).1)
      exact ⟨l1 ++ l2, by
        simp [loopRun, hd, h2, h1, List.append_assoc]⟩

/-- Helper: every attributed error received before completion leaves an
`error` Output Item in the final outputs. -/
theorem loopRun_error_member (msgId : List Char) (ro : Bool) :
    ∀ (msgs : List KernelMsg) (st : LoopState) (m : KernelMsg),
      m ∈ receivedBefore msgId msgs → attributedError msgId m = true →
      (⟨("error".toList), m.content⟩ : OutputItem) ∈
        ((loopRun msgId true ro st msgs).1).outputs := by
  intro msgs
  induction msgs with
  | nil => intro st m hm; simp [receivedBefore] at hm
  | cons m0 rest ih =>
    intro st m hm ha
    cases hc : isCompletion msgId m0 with
    | true =>
      rw [receivedBefore, if_pos (by simp [hc])] at hm
      simp at hm
    | false =>
      rw [receivedBefore, if_neg (by simp [hc])] at hm
      have hnd : (stepMsg msgId true ro st m0).2 = false := by
        rw [stepMsg_done_iff, hc]
      rcases List.mem_cons.mp hm with rfl | hm'
      · have hout := stepMsg_error_out msgId ro st m ha
        obtain ⟨l, hl⟩ :=
          loopRun_outputs_sub msgId true ro rest
            ((stepMsg msgId true ro st m).1)
        simp only [loopRun, hnd, Bool.false_eq_true, if_neg, if_false]
        rw [hl, hout]
        simp
      · simp only [loopRun, hnd, Bool.false_eq_true, if_neg, if_false]
        exact ih ((stepMsg msgId true ro st m0).1) m hm' ha

/-- Claim C3: in `--json` mode `execute_code` reports final status `error`
iff at least one error-type message attributed to this request (parent id
equal to the sent message id) was received before the completion signal,
and `ok` otherwise; every such attributed error message contributes an
`error` Output Item, while result-only mode turns `stream` and
`display_data` messages into no-ops. -/
theorem c3_error_status_iff :
    ∀ (msgId : List Char) (ro : Bool) (msgs : List KernelMsg) (oc : Outcome),
      executeOutcome msgId ro msgs = some oc →
      ((oc.status = ("error".toList)) ↔
        ((receivedBefore msgId msgs).any
          (fun m => attributedError msgId m)) = true) ∧
      (∀ m ∈ receivedBefore msgId msgs, attributedError msgId m = true →
        (⟨("error".toList), m.content⟩ : OutputItem) ∈ oc.outputs) ∧
      (∀ (st : LoopState) (m : KernelMsg),
        m.msg_type = some ("stream".toList) →
        stepMsg msgId true true st m = (st, false)) ∧
      (∀ (st : LoopState) (m : KernelMsg),
        m.msg_type = some ("display_data".toList) →
        stepMsg msgId true true st m = (st, false)) := by
  intro msgId ro msgs oc h
  unfold executeOutcome at h
  by_cases hdone : (loopRun msgId true ro ⟨[], false, []⟩ msgs).2 = true
  case neg => rw [if_neg hdone] at h; exact absurd h (by simp)
  rw [if_pos hdone] at h
  have hoc := Option.some.inj h
  subst hoc
  have hh := loopRun_hadError msgId ro msgs ⟨[], false, []⟩
  refine ⟨?_, ?_, ?_, ?_⟩
  · cases hE : ((loopRun msgId true ro ⟨[], false, []⟩ msgs).1).hadError with
    | false =>
      rw [hE] at hh
      have hany : ((receivedBefore msgId msgs).any
          (fun m => attributedError msgId m)) = false := by
        simpa using hh.symm
      have hne : ("ok".toList) ≠ ("error".toList) := by decide
      simp [hE, hany, hne]
    | true =>
      rw [hE] at hh
      have hany : ((receivedBefore msgId msgs).any
          (fun m => attributedError msgId m)) = true := by
        simpa using hh.symm
      simp [hE, hany]
  · intro m hm ha
    exact loopRun_error_member msgId ro msgs ⟨[], false, []⟩ m hm ha
  · intro st m hm
    have d : ("stream".toList) ≠ ("status".toList) := by decide
    by_cases hp : m.parent_id = some msgId
    · simp [stepMsg, hm, hp, d]
    · simp [stepMsg, hm, hp, d]
  · intro st m hm
    have d1 : ("display_data".toList) ≠ ("status".toList) := by decide
    have d2 : ("display_data".toList) ≠ ("stream".toList) := by decide
    have d3 : ("display_data".toList) ≠ ("execute_result".toList) := by decide
    by_cases hp : m.parent_id = some msgId
    · simp [stepMsg, hm, hp, d1, d2, d3]
    · simp [stepMsg, hm, hp, d1, d2, d3]

/-- Witness for C3 at a concrete run: one attributed error followed by the
idle completion signal yields status `error` and keeps the error Output
Item. -/
theorem c3_error_status_iff_witness :
    ((⟨("error".toList),
        [⟨("error".toList), ⟨none, none, none, none, []⟩⟩]⟩ : Outcome).status =
      ("error".toList) ↔
      ((receivedBefore ("mid".toList)
          [⟨some ("error".toList), some ("mid".toList),
            ⟨none, none, none, none, []⟩⟩,
           ⟨some ("status".toList), some ("mid".toList),
            ⟨none, none, none, some ("idle".toList), []⟩⟩]).any
        (fun m => attributedError ("mid".toList) m)) = true) ∧
    (⟨("error".toList), (⟨none, none, none, none, []⟩ : MsgContent)⟩ :
        OutputItem) ∈
      (⟨("error".toList),
        [⟨("error".toList), ⟨none, none, none, none, []⟩⟩]⟩ : Outcome).outputs := by
  have h := c3_error_status_iff ("mid".toList) false
    [⟨some ("error".toList), some ("mid".toList),
      ⟨none, none, none, none, []⟩⟩,
     ⟨some ("status".toList), some ("mid".toList),
      ⟨none, none, none, some ("idle".toList), []⟩⟩]
    ⟨("error".toList), [⟨("error".toList), ⟨none, none, none, none, []⟩⟩]⟩
    (by decide)
  exact ⟨h.1, h.2.1
    ⟨some ("error".toList), some ("mid".toList), ⟨none, none, none, none, []⟩⟩
    (by decide) (by decide)⟩

/-- Helper: a string starts with itself appended with anything. -/
theorem startsWithL_self_append :
    ∀ t u : List Char, startsWithL t (t ++ u) = true := by
  intro t u
  induction t with
  | nil => rfl
  | cons a as ih => simp [startsWithL, ih]

/-- Helper: `finalizeMatches` succeeds exactly on a singleton match list,
returning that record's server URL, token and kernel id. -/
theorem finalizeMatches_ok_iff (ms : List SessionRecord) (msg : List Char)
    (out : List Char × Option (List Char) × List Char) :
    finalizeMatches ms msg = Except.ok out ↔
      ∃ r, ms = [r] ∧
        out = (r.server_base_url, r.server_token, r.kernel_id) := by
  cases ms with
  | nil => simp [finalizeMatches]
  | cons a t =>
    cases t with
    | nil =>
      constructor
      · intro h
        have h'' : (a.server_base_url, a.server_token, a.kernel_id) = out := by
          have h' := h
          simp only [finalizeMatches] at h'
          exact Except.ok.inj h'
        exact ⟨a, rfl, h''.symm⟩
      · rintro ⟨r, hr, ho⟩
        have har : a = r := by injection hr
        rw [ho, ← har]
        rfl
    | cons b t2 =>
      constructor
      · intro h
        exact absurd h (by simp [finalizeMatches])
      · rintro ⟨r, hr, ho⟩
        exact absurd hr (by simp)

/-- Helper: `finalizeMatches` fails whenever the match list does not have
exactly one element. -/
theorem finalizeMatches_err (ms : List SessionRecord) (msg : List Char)
    (h : ms.length ≠ 1) :
    ∃ e, finalizeMatches ms msg = Except.error e := by
  cases ms with
  | nil => exact ⟨_, rfl⟩
  | cons a t =>
    cases t with
    | nil => simp at h
    | cons b t2 => exact ⟨_, rfl⟩

/-- Helper: whenever a match set is computed, it is a filter of the
collected records. -/
theorem resolveMatchSet_filter :
    ∀ (compile : List Char → Except (List Char) (List Char → Bool))
      (servers : List (ServerInfo × SessionsResponse))
      (kid km : Option (List Char)) (ms : List SessionRecord),
      resolveMatchSet compile servers kid km = some ms →
      ∃ p, ms = ((collectRecords servers).1).filter p := by
  intro compile servers kid km ms h
  unfold resolveMatchSet at h
  dsimp only at h
  by_cases h1 : truthy kid = true
  · rw [if_pos h1] at h
    exact ⟨_, (Option.some.inj h).symm⟩
  · rw [if_neg h1] at h
    by_cases h2 : truthy km = true
    · rw [if_pos h2] at h
      by_cases h3 : startsWithL ("re:".toList) (km.getD []) = true
      · rw [if_pos h3] at h
        cases hcp : compile ((km.getD []).drop 3) with
        | error e => rw [hcp] at h; exact absurd h (by simp)
        | ok search =>
          rw [hcp] at h
          exact ⟨_, (Option.some.inj h).symm⟩
      · rw [if_neg h3] at h
        exact ⟨_, (Option.some.inj h).symm⟩
    · rw [if_neg h2] at h
      exact absurd h (by simp)

/-- Helper: with a nonempty record directory and a computed match set, the
resolver's answer is `finalizeMatches` of that match set. -/
theorem resolve_finalize :
    ∀ (compile : List Char → Except (List Char) (List Char → Bool))
      (servers : List (ServerInfo × SessionsResponse))
      (kid km : Option (List Char)) (ms : List SessionRecord),
      ((collectRecords servers).1).isEmpty = false →
      resolveMatchSet compile servers kid km = some ms →
      ∃ msg, resolveKernelTarget compile servers kid km =
        finalizeMatches ms msg := by
  intro compile servers kid km ms hrec h
  unfold resolveMatchSet at h
  unfold resolveKernelTarget
  dsimp only at h ⊢
  rw [if_neg (by simp [hrec])]
  by_cases h1 : truthy kid = true
  · rw [if_pos h1] at h ⊢
    exact ⟨_, by rw [Option.some.inj h]⟩
  · rw [if_neg h1] at h ⊢
    by_cases h2 : truthy km = true
    · rw [if_pos h2] at h ⊢
      by_cases h3 : startsWithL ("re:".toList) (km.getD []) = true
      · rw [if_pos h3] at h ⊢
        cases hcp : compile ((km.getD []).drop 3) with
        | error e => rw [hcp] at h; exact absurd h (by simp)
        | ok search =>
          rw [hcp] at h
          exact ⟨_, by rw [← Option.some.inj h]⟩
      · rw [if_neg h3] at h ⊢
        exact ⟨_, by rw [Option.some.inj h]⟩
    · rw [if_neg h2] at h
      exact absurd h (by simp)

/-- Helper: when no match set is computed the resolver fails. -/
theorem resolve_error_of_none :
    ∀ (compile : List Char → Except (List Char) (List Char → Bool))
      (servers : List (ServerInfo × SessionsResponse))
      (kid km : Option (List Char)),
      resolveMatchSet compile servers kid km = none →
      ∃ e, resolveKernelTarget compile servers kid km = Except.error e := by
  intro compile servers kid km h
  unfold resolveMatchSet at h
  unfold resolveKernelTarget
  dsimp only at h ⊢
  by_cases hrec : ((collectRecords servers).1).isEmpty = true
  · rw [if_pos hrec]
    exact ⟨_, rfl⟩
  · rw [if_neg hrec]
    by_cases h1 : truthy kid = true
    · rw [if_pos h1] at h
      exact absurd h (by simp)
    · rw [if_neg h1] at h ⊢
      by_cases h2 : truthy km = true
      · rw [if_pos h2] at h ⊢
        by_cases h3 : startsWithL ("re:".toList) (km.getD []) = true
        · rw [if_pos h3] at h ⊢
          cases hcp : compile ((km.getD []).drop 3) with
          | error e => exact ⟨_, rfl⟩
          | ok search => rw [hcp] at h; exact absurd h (by simp)
        · rw [if_neg h3] at h
          exact absurd h (by simp)
      · rw [if_neg h2]
        exact ⟨_, rfl⟩

/-- Claim C1: for every server list and caller-supplied selector,
`resolve_kernel_target` succeeds exactly when the filtered match set is a
singleton, in which case it returns that record's server base URL, server
token and kernel id; with zero or more than one match (and in every other
situation) it fails with a diagnostic. -/
theorem c1_resolve_exactly_one :
    ∀ (compile : List Char → Except (List Char) (List Char → Bool))
      (servers : List (ServerInfo × SessionsResponse))
      (kid km : Option (List Char)),
      (∀ out, resolveKernelTarget compile servers kid km = Except.ok out ↔
        (∃ r, resolveMatchSet compile servers kid km = some [r] ∧
          out = (r.server_base_url, r.server_token, r.kernel_id))) ∧
      (∀ ms, resolveMatchSet compile servers kid km = some ms →
        ms.length ≠ 1 →
        ∃ e, resolveKernelTarget compile servers kid km =
          Except.error e) := by
  intro compile servers kid km
  constructor
  · intro out
    constructor
    · intro h
      cases hms : resolveMatchSet compile servers kid km with
      | none =>
        obtain ⟨e, he⟩ := resolve_error_of_none compile servers kid km hms
        rw [he] at h
        exact absurd h (by simp)
      | some ms =>
        by_cases hrec : ((collectRecords servers).1).isEmpty = true
        · unfold resolveKernelTarget at h
          dsimp only at h
          rw [if_pos hrec] at h
          exact absurd h (by simp)
        · have hrec' : ((collectRecords servers).1).isEmpty = false := by
            revert hrec
            cases ((collectRecords servers).1).isEmpty <;> simp
          obtain ⟨msg, hkt⟩ :=
            resolve_finalize compile servers kid km ms hrec' hms
          rw [hkt] at h
          obtain ⟨r, hr, ho⟩ := (finalizeMatches_ok_iff ms msg out).mp h
          exact ⟨r, by rw [hr], ho⟩
    · rintro ⟨r, hms, hout⟩
      obtain ⟨p, hp⟩ :=
        resolveMatchSet_filter compile servers kid km [r] hms
      have hrne : (collectRecords servers).1 ≠ [] := by
        intro hnil
        rw [hnil] at hp
        simp at hp
      have hrec : ((collectRecords servers).1).isEmpty = false := by
        cases hcons : (collectRecords servers).1 with
        | nil => exact absurd hcons hrne
        | cons a t => simp
      obtain ⟨msg, hkt⟩ :=
        resolve_finalize compile servers kid km [r] hrec hms
      rw [hkt, hout]
      exact (finalizeMatches_ok_iff [r] msg _).mpr ⟨r, rfl, rfl⟩
  · intro ms hms hlen
    by_cases hrec : ((collectRecords servers).1).isEmpty = true
    · refine ⟨ResolveError.noSessions, ?_⟩
      unfold resolveKernelTarget
      dsimp only
      rw [if_pos hrec]
    · have hrec' : ((collectRecords servers).1).isEmpty = false := by
        revert hrec
        cases ((collectRecords servers).1).isEmpty <;> simp
      obtain ⟨msg, hkt⟩ :=
        resolve_finalize compile servers kid km ms hrec' hms
      obtain ⟨e, he⟩ := finalizeMatches_err ms msg hlen
      exact ⟨e, by rw [hkt, he]⟩

/-- Witness for C1: a one-server, one-session directory; selecting by the
existing kernel id succeeds with that record's data, selecting by a
non-matching id fails. -/
theorem c1_resolve_exactly_one_witness :
    resolveKernelTarget (fun _ => Except.error [])
        [(⟨("http://s".toList), none⟩, SessionsResponse.ok
          [SessionEntry.dict ⟨KernelField.dict (some ("k1".toList)),
            some ("demo.ipynb".toList), none⟩])]
        (some ("k1".toList)) none =
      Except.ok (("http://s".toList), none, ("k1".toList)) ∧
    (∃ e, resolveKernelTarget (fun _ => Except.error [])
        [(⟨("http://s".toList), none⟩, SessionsResponse.ok
          [SessionEntry.dict ⟨KernelField.dict (some ("k1".toList)),
            some ("demo.ipynb".toList), none⟩])]
        (some ("zz".toList)) none = Except.error e) := by
  constructor
  · exact ((c1_resolve_exactly_one (fun _ => Except.error [])
      [(⟨("http://s".toList), none⟩, SessionsResponse.ok
        [SessionEntry.dict ⟨KernelField.dict (some ("k1".toList)),
          some ("demo.ipynb".toList), none⟩])]
      (some ("k1".toList)) none).1 _).mpr
      ⟨⟨("k1".toList), ("http://s".toList), none,
        ⟨KernelField.dict (some ("k1".toList)),
          some ("demo.ipynb".toList), none⟩⟩, by decide, rfl⟩
  · exact (c1_resolve_exactly_one (fun _ => Except.error [])
      [(⟨("http://s".toList), none⟩, SessionsResponse.ok
        [SessionEntry.dict ⟨KernelField.dict (some ("k1".toList)),
          some ("demo.ipynb".toList), none⟩])]
      (some ("zz".toList)) none).2 [] (by decide) (by decide)

/-- Claim C6: when the `kernel_match` reference begins with `re:` and the
remainder does not compile, resolution fails with the `Invalid regex`
diagnostic, for every record directory (nonempty, so that the earlier
no-sessions exit does not fire) and regardless of what any search function
would say about any record — no record is ever tested. -/
theorem c6_invalid_regex_fails_first :
    ∀ (compile : List Char → Except (List Char) (List Char → Bool))
      (servers : List (ServerInfo × SessionsResponse))
      (kid : Option (List Char)) (pat e : List Char),
      truthy kid = false →
      ((collectRecords servers).1) ≠ [] →
      compile pat = Except.error e →
      resolveKernelTarget compile servers kid
          (some (("re:".toList) ++ pat)) =
        Except.error (ResolveError.invalidRegex
          (("Invalid regex: ".toList) ++ e)) := by
  intro compile servers kid pat e hkid hrec hcp
  unfold resolveKernelTarget
  dsimp only
  rw [if_neg (by simpa [List.isEmpty_iff] using hrec)]
  rw [if_neg (by simp [hkid])]
  rw [if_pos (show truthy (some (("re:".toList) ++ pat)) = true by
    simp [truthy])]
  rw [if_pos (show startsWithL ("re:".toList)
      ((some (("re:".toList) ++ pat)).getD []) = true by
    exact startsWithL_self_append ("re:".toList) pat)]
  have hd : ((some (("re:".toList) ++ pat)).getD []).drop 3 = pat := by
    show (("re:".toList) ++ pat).drop 3 = pat
    have h3 : ("re:".toList).length = 3 := rfl
    rw [← h3, List.drop_left]
  rw [hd, hcp]

/-- Witness for C6: an unclosed-group pattern against a nonempty one-server
directory. -/
theorem c6_invalid_regex_fails_first_witness :
    resolveKernelTarget (fun _ => Except.error ("boom".toList))
        [(⟨("http://s".toList), none⟩, SessionsResponse.ok
          [SessionEntry.dict ⟨KernelField.dict (some ("k1".toList)),
            some ("demo.ipynb".toList), none⟩])]
        none (some (("re:".toList) ++ ("(".toList))) =
      Except.error (ResolveError.invalidRegex
        (("Invalid regex: ".toList) ++ ("boom".toList))) := by
  exact c6_invalid_regex_fails_first (fun _ => Except.error ("boom".toList))
    [(⟨("http://s".toList), none⟩, SessionsResponse.ok
      [SessionEntry.dict ⟨KernelField.dict (some ("k1".toList)),
        some ("demo.ipynb".toList), none⟩])]
    none ("(".toList) ("boom".toList) rfl (by decide) rfl

/-- Helper: `startsWithL` is list-prefix. -/
theorem startsWithL_iff :
    ∀ t s : List Char, startsWithL t s = true ↔ ∃ u, s = t ++ u := by
  intro t
  induction t with
  | nil => intro s; simp [startsWithL]
  | cons a as ih =>
    intro s
    cases s with
    | nil => simp [startsWithL]
    | cons b bs =>
      constructor
      · intro h
        unfold startsWithL at h
        split_ifs at h with hab
        obtain ⟨u, hu⟩ := (ih bs).mp h
        exact ⟨u, by rw [hu, ← hab, List.cons_append]⟩
      · rintro ⟨u, hu⟩
        injection hu with h1 h2
        simp [startsWithL, h1, (ih bs).mpr ⟨u, h2⟩]

/-- Claim C8: the notebook-like comparison accepts `report.ipynb` against
stems `report` and `report-1` under a case-insensitively equal extension
and rejects `reportx`; an extension-free reference matches a stem-equal
candidate of any extension; a match requires the candidate stem to equal
the reference stem or extend it with a `-`; differing extensions
(case-insensitively) never match. -/
theorem c8_notebook_like_match_rules :
    notebookLikeMatch ("report.ipynb".toList) ("report.ipynb".toList) =
      true ∧
    notebookLikeMatch ("report.ipynb".toList) ("report-1.ipynb".toList) =
      true ∧
    notebookLikeMatch ("report.ipynb".toList) ("report-1.IPYNB".toList) =
      true ∧
    notebookLikeMatch ("report.ipynb".toList) ("reportx.ipynb".toList) =
      false ∧
    notebookLikeMatch ("report".toList) ("report.txt".toList) = true ∧
    (∀ q c : List Char,
      (splitext (basename q)).2 = [] →
      (splitext (basename q)).1 ≠ [] →
      (splitext (basename c)).1 = (splitext (basename q)).1 →
      notebookLikeMatch q c = true) ∧
    (∀ q c : List Char, notebookLikeMatch q c = true →
      (splitext (basename c)).1 = (splitext (basename q)).1 ∨
      ∃ u, (splitext (basename c)).1 =
        (splitext (basename q)).1 ++ '-' :: u) ∧
    (∀ q c : List Char,
      (splitext (basename q)).2 ≠ [] →
      ((splitext (basename q)).2).map Char.toLower ≠
        ((splitext (basename c)).2).map Char.toLower →
      notebookLikeMatch q c = false) := by
  refine ⟨by decide, by decide, by decide, by decide, by decide, ?_, ?_, ?_⟩
  · intro q c h1 h2 h3
    simp [notebookLikeMatch, h1, h2, h3]
  · intro q c h
    unfold notebookLikeMatch at h
    dsimp only at h
    split_ifs at h with h1 h2
    rcases Bool.or_eq_true _ _ |>.mp h with h' | h'
    · exact Or.inl (of_decide_eq_true h')
    · obtain ⟨u, hu⟩ := (startsWithL_iff _ _).mp h'
      exact Or.inr ⟨u, by rw [hu]; simp⟩
  · intro q c h1 h2
    simp [notebookLikeMatch, h1, h2]

/-- Witness for C8's general clauses at concrete inputs. -/
theorem c8_notebook_like_match_rules_witness :
    notebookLikeMatch ("nb".toList) ("nb.md".toList) = true ∧
    ((splitext (basename ("rep-2.ipynb".toList))).1 =
        (splitext (basename ("rep.ipynb".toList))).1 ∨
      ∃ u, (splitext (basename ("rep-2.ipynb".toList))).1 =
        (splitext (basename ("rep.ipynb".toList))).1 ++ '-' :: u) ∧
    notebookLikeMatch ("rep.ipynb".toList) ("rep.txt".toList) = false := by
  refine ⟨?_, ?_, ?_⟩
  · exact c8_notebook_like_match_rules.2.2.2.2.2.1 ("nb".toList)
      ("nb.md".toList) (by decide) (by decide) (by decide)
  · exact c8_notebook_like_match_rules.2.2.2.2.2.2.1 ("rep.ipynb".toList)
      ("rep-2.ipynb".toList) (by decide)
  · exact c8_notebook_like_match_rules.2.2.2.2.2.2.2 ("rep.ipynb".toList)
      ("rep.txt".toList) (by decide) (by decide)

/-- Claim C9 (counterexample): the claim calls `.ipynb` a reference with an
empty stem that can never match, but under the source's `splitext` the stem
of `.ipynb` is `.ipynb` itself (non-empty), and under the default rule the
reference `.ipynb` does match a session with path `a.ipynb` through the
substring check. -/
theorem c9_counterexample_dot_ipynb_matches :
    sessionMatchesSubstring
      ⟨KernelField.dict none, some ("a.ipynb".toList), none⟩
      (".ipynb".toList) = true ∧
    splitext (basename (".ipynb".toList)) = ((".ipynb".toList), []) := by
  exact ⟨by decide, by decide⟩

/-- Claim C9 (amended): a reference whose computed stem is empty never
matches any candidate through the notebook-like comparison (the substring
branch of the default rule can still match such references). -/
theorem c9_empty_stem_never_notebook_matches :
    ∀ q c : List Char, (splitext (basename q)).1 = [] →
      notebookLikeMatch q c = false := by
  intro q c h
  simp [notebookLikeMatch, h]

/-- Witness for the amended C9: `x/` has an empty stem and fails the
notebook-like comparison against `report.ipynb`. -/
theorem c9_empty_stem_never_notebook_matches_witness :
    notebookLikeMatch ("x/".toList) ("report.ipynb".toList) = false := by
  exact c9_empty_stem_never_notebook_matches ("x/".toList)
    ("report.ipynb".toList) (by decide)

/-- Helper: equal-length suffixes of equal appends are equal. -/
theorem suffix_eq_of_append_eq (u1 u2 t1 t2 : List Char)
    (h : u1 ++ t1 = u2 ++ t2) (hl : t1.length = t2.length) : t1 = t2 := by
  have h1 : (u1 ++ t1).drop u1.length = t1 := List.drop_left _ _
  have hu : u1.length = u2.length := by
    have hlen := congrArg List.length h
    simp at hlen
    omega
  rw [h, hu, List.drop_left] at h1
  exact h1.symm

/-- Helper: `endsWithL` is list-suffix. -/
theorem endsWithL_iff :
    ∀ t s : List Char, endsWithL t s = true ↔ ∃ u, s = u ++ t := by
  intro t s
  unfold endsWithL
  rw [startsWithL_iff]
  constructor
  · rintro ⟨u, hu⟩
    refine ⟨u.reverse, ?_⟩
    have h2 := congrArg List.reverse hu
    simpa using h2
  · rintro ⟨u, hu⟩
    exact ⟨u.reverse, by rw [hu]; simp⟩

/-- Helper: a string ending in `.ipynb` does not end in a newline. -/
theorem no_newline_suffix_of_ipynb :
    ∀ x w : List Char, x ++ (".ipynb".toList) = w ++ ['\n'] → False := by
  intro x w h
  have h2 : (x ++ (".ipyn".toList)) ++ ['b'] = w ++ ['\n'] := by
    rw [← h]; simp
  have h3 := suffix_eq_of_append_eq _ _ ['b'] ['\n'] h2 rfl
  exact absurd h3 (by decide)

/-- Helper: `endsWithL "\n"` is false on strings ending in `.ipynb`. -/
theorem not_endsWith_newline_ipynb :
    ∀ x : List Char,
      endsWithL ("\n".toList) (x ++ (".ipynb".toList)) = false := by
  intro x
  cases hE : endsWithL ("\n".toList) (x ++ (".ipynb".toList)) with
  | false => rfl
  | true =>
    obtain ⟨w, hw⟩ := (endsWithL_iff _ _).mp hE
    exact absurd (no_newline_suffix_of_ipynb x w hw) (fun h => h)

/-- Helper: full characterization of a `jvscTailMatch` hit: the whole
string is `-jvsc-<opaque>` followed by `.ipynb` possibly with one trailing
newline, with `<opaque>` nonempty and dot-free. -/
theorem jvscTailMatch_iff :
    ∀ s : List Char, jvscTailMatch s = true ↔
      ∃ o t, s = ("-jvsc-".toList) ++ o ++ t ∧ o ≠ [] ∧
        (∀ c ∈ o, c ≠ '.') ∧
        (t = (".ipynb".toList) ∨ t = (".ipynb\n".toList)) := by
  intro s
  constructor
  · intro h
    unfold jvscTailMatch at h
    dsimp only at h
    rw [Bool.and_eq_true, Bool.or_eq_true, Bool.and_eq_true,
      Bool.and_eq_true, Bool.and_eq_true, Bool.and_eq_true] at h
    obtain ⟨hA, hB⟩ := h
    obtain ⟨w, hw⟩ := (startsWithL_iff _ _).mp hA
    have hdrop : s.drop 6 = w := by
      rw [hw]
      have h6 : ("-jvsc-".toList).length = 6 := rfl
      rw [← h6, List.drop_left]
    rw [hdrop] at hB
    rcases hB with ⟨hend, hmid, hdot⟩ | ⟨hend, hmid, hdot⟩
    · obtain ⟨m, hm⟩ := (endsWithL_iff _ _).mp hend
      have hmid' : w.take (w.length - 6) = m := by
        rw [hm]
        have h6 : (".ipynb".toList).length = 6 := rfl
        have hl : (m ++ (".ipynb".toList)).length - 6 = m.length := by
          simp
        rw [hl, List.take_left]
      rw [hmid'] at hmid hdot
      refine ⟨m, (".ipynb".toList), ?_, ?_, ?_, Or.inl rfl⟩
      · rw [hw, hm]; simp
      · simpa [List.isEmpty_iff] using hmid
      · intro c hc
        have := (List.all_eq_true.mp hdot) c hc
        simpa using this
    · obtain ⟨m, hm⟩ := (endsWithL_iff _ _).mp hend
      have hmid' : w.take (w.length - 7) = m := by
        rw [hm]
        have hl : (m ++ (".ipynb\n".toList)).length - 7 = m.length := by
          simp
        rw [hl, List.take_left]
      rw [hmid'] at hmid hdot
      refine ⟨m, (".ipynb\n".toList), ?_, ?_, ?_, Or.inr rfl⟩
      · rw [hw, hm]; simp
      · simpa [List.isEmpty_iff] using hmid
      · intro c hc
        have := (List.all_eq_true.mp hdot) c hc
        simpa using this
  · rintro ⟨o, t, hs, ho, hdot, ht⟩
    unfold jvscTailMatch
    dsimp only
    rw [Bool.and_eq_true]
    constructor
    · rw [hs, List.append_assoc]
      exact startsWithL_self_append _ _
    · have hdrop : s.drop 6 = o ++ t := by
        rw [hs, List.append_assoc]
        have h6 : ("-jvsc-".toList).length = 6 := rfl
        rw [← h6, List.drop_left]
      rw [hdrop, Bool.or_eq_true]
      have hoall : o.all (fun c => c != '.') = true := by
        rw [List.all_eq_true]
        intro c hc
        simpa using hdot c hc
      have honem : o.isEmpty = false := by
        simpa [List.isEmpty_iff] using ho
      cases ht with
      | inl h6 =>
        left
        rw [Bool.and_eq_true, Bool.and_eq_true]
        subst h6
        refine ⟨(endsWithL_iff _ _).mpr ⟨o, rfl⟩, ?_, ?_⟩
        · have hl : (o ++ (".ipynb".toList)).length - 6 = o.length := by
            simp
          rw [hl, List.take_left, honem]
          rfl
        · have hl : (o ++ (".ipynb".toList)).length - 6 = o.length := by
            simp
          rw [hl, List.take_left, hoall]
      | inr h7 =>
        right
        rw [Bool.and_eq_true, Bool.and_eq_true]
        subst h7
        refine ⟨(endsWithL_iff _ _).mpr ⟨o, rfl⟩, ?_, ?_⟩
        · have hl : (o ++ (".ipynb\n".toList)).length - 7 = o.length := by
            simp
          rw [hl, List.take_left, honem]
          rfl
        · have hl : (o ++ (".ipynb\n".toList)).length - 7 = o.length := by
            simp
          rw [hl, List.take_left, hoall]

/-- Helper: `stripJvsc` either leaves the string unchanged or removes
exactly one `-jvsc-<opaque>` chunk sitting immediately before the final
`.ipynb` (with Python's `$` also accepting a final newline). -/
theorem stripJvsc_spec :
    ∀ v : List Char, stripJvsc v = v ∨
      ∃ p o t, v = p ++ ("-jvsc-".toList) ++ o ++ t ∧ o ≠ [] ∧
        (∀ c ∈ o, c ≠ '.') ∧
        (t = (".ipynb".toList) ∨ t = (".ipynb\n".toList)) ∧
        stripJvsc v = p ++ t := by
  intro v
  induction v with
  | nil => exact Or.inl rfl
  | cons c rest ih =>
    by_cases hm : jvscTailMatch (c :: rest) = true
    · right
      obtain ⟨o, t, hs, ho, hdot, ht⟩ := (jvscTailMatch_iff _).mp hm
      refine ⟨[], o, t, by simpa using hs, ho, hdot, ht, ?_⟩
      rw [stripJvsc, if_pos hm]
      cases ht with
      | inl h6 =>
        subst h6
        have hx : c :: rest =
            (("-jvsc-".toList) ++ o) ++ (".ipynb".toList) := hs
        have hne : endsWithL ("\n".toList) (c :: rest) = false := by
          rw [hx]; exact not_endsWith_newline_ipynb _
        rw [jvscKeptTail, if_neg (by rw [hne]; exact Bool.false_ne_true)]
        exact (List.nil_append _).symm
      | inr h7 =>
        subst h7
        have hE : endsWithL ("\n".toList) (c :: rest) = true := by
          apply (endsWithL_iff _ _).mpr
          refine ⟨("-jvsc-".toList) ++ o ++ (".ipynb".toList), ?_⟩
          rw [hs]
          simp
        rw [jvscKeptTail, if_pos (by exact hE)]
        exact (List.nil_append _).symm
    · cases ih with
      | inl h => exact Or.inl (by rw [stripJvsc, if_neg hm, h])
      | inr h =>
        obtain ⟨p, o, t, hv, ho, hdot, ht, hstr⟩ := h
        right
        refine ⟨c :: p, o, t, by simp [hv], ho, hdot, ht, ?_⟩
        rw [stripJvsc, if_neg hm, hstr]
        simp

/-- Helper: a hex run extends along an appended tail. -/
theorem hexRun_extend :
    ∀ (n : Nat) (s r x : List Char), hexRun n s = some r →
      hexRun n (s ++ x) = some (r ++ x) := by
  intro n
  induction n with
  | zero =>
    intro s r x h
    simp [hexRun] at h
    simp [hexRun, h]
  | succ n ih =>
    intro s r x h
    cases s with
    | nil => simp [hexRun] at h
    | cons c cs =>
      rw [hexRun] at h
      split_ifs at h with hc
      rw [List.cons_append, hexRun, if_pos hc]
      exact ih cs r x h

/-- Helper: a dash run extends along an appended tail. -/
theorem dashRun_extend :
    ∀ (s r x : List Char), dashRun s = some r →
      dashRun (s ++ x) = some (r ++ x) := by
  intro s r x h
  cases s with
  | nil => simp [dashRun] at h
  | cons c cs =>
    rw [dashRun] at h
    split_ifs at h with hc
    rw [List.cons_append, dashRun, if_pos hc]
    rw [Option.some.inj h]

/-- Helper: a segment run extends along an appended tail. -/
theorem runSegs_extend :
    ∀ (ns : List Nat) (s r x : List Char), runSegs ns s = some r →
      runSegs ns (s ++ x) = some (r ++ x) := by
  intro ns
  induction ns with
  | nil =>
    intro s r x h
    simp [runSegs] at h
    simp [runSegs, h]
  | cons n ns ih =>
    intro s r x h
    rw [runSegs] at h
    cases hd : dashRun s with
    | none => rw [hd] at h; simp at h
    | some s1 =>
      rw [hd] at h
      simp only [Option.some_bind] at h
      cases hh : hexRun n s1 with
      | none => rw [hh] at h; simp at h
      | some s2 =>
        rw [hh] at h
        simp only [Option.some_bind] at h
        rw [runSegs, dashRun_extend s s1 x hd]
        simp only [Option.some_bind]
        rw [hexRun_extend n s1 s2 x hh]
        simp only [Option.some_bind]
        exact ih s2 r x h

/-- Helper: a hex run consumes exactly `n` characters. -/
theorem hexRun_decomp :
    ∀ (n : Nat) (s r : List Char), hexRun n s = some r →
      ∃ h, s = h ++ r ∧ h.length = n := by
  intro n
  induction n with
  | zero =>
    intro s r h
    simp [hexRun] at h
    exact ⟨[], by simp [h], rfl⟩
  | succ n ih =>
    intro s r h
    cases s with
    | nil => simp [hexRun] at h
    | cons c cs =>
      rw [hexRun] at h
      split_ifs at h with hc
      obtain ⟨hh, hhs, hhl⟩ := ih cs r h
      exact ⟨c :: hh, by simp [hhs], by simp [hhl]⟩

/-- Helper: a dash run consumes exactly one `-`. -/
theorem dashRun_decomp :
    ∀ (s r : List Char), dashRun s = some r → s = '-' :: r := by
  intro s r h
  cases s with
  | nil => simp [dashRun] at h
  | cons c cs =>
    rw [dashRun] at h
    split_ifs at h with hc
    rw [hc, Option.some.inj h]

/-- Helper: a segment run consumes exactly `sum + count` characters. -/
theorem runSegs_decomp :
    ∀ (ns : List Nat) (s r : List Char), runSegs ns s = some r →
      ∃ u, s = u ++ r ∧ u.length = ns.sum + ns.length := by
  intro ns
  induction ns with
  | nil =>
    intro s r h
    simp [runSegs] at h
    exact ⟨[], by simp [h], rfl⟩
  | cons n ns ih =>
    intro s r h
    rw [runSegs] at h
    cases hd : dashRun s with
    | none => rw [hd] at h; simp at h
    | some s1 =>
      rw [hd] at h
      simp only [Option.some_bind] at h
      cases hh : hexRun n s1 with
      | none => rw [hh] at h; simp at h
      | some s2 =>
        rw [hh] at h
        simp only [Option.some_bind] at h
        obtain ⟨u2, hu2, hl2⟩ := ih s2 r h
        obtain ⟨u1, hu1, hl1⟩ := hexRun_decomp n s1 s2 hh
        have hds := dashRun_decomp s s1 hd
        refine ⟨'-' :: (u1 ++ u2), ?_, ?_⟩
        · rw [hds, hu1, hu2]; simp
        · simp [hl1, hl2, List.sum_cons]
          omega

/-- Helper: a UUID-shaped prefix consumes itself, leaving any tail. -/
theorem uuidLike_tail :
    ∀ (u : List Char), uuidLike u = true →
      ∀ t, uuidChain (u ++ t) = some t := by
  intro u hu t
  unfold uuidLike at hu
  cases hc : uuidChain u with
  | none => rw [hc] at hu; simp at hu
  | some rest =>
    rw [hc] at hu
    have hrest : rest = [] := by simpa [List.isEmpty_iff] using hu
    subst hrest
    have hx := runSegs_extend [8, 4, 4, 4, 12] u [] t hc
    simpa [uuidChain] using hx

/-- Helper: a UUID-shaped suffix has 37 characters. -/
theorem uuidLike_length :
    ∀ u : List Char, uuidLike u = true → u.length = 37 := by
  intro u hu
  unfold uuidLike at hu
  cases hc : uuidChain u with
  | none => rw [hc] at hu; simp at hu
  | some rest =>
    rw [hc] at hu
    have hrest : rest = [] := by simpa [List.isEmpty_iff] using hu
    subst hrest
    obtain ⟨w, hw, hl⟩ := runSegs_decomp [8, 4, 4, 4, 12] u [] hc
    rw [hw]
    simp only [List.length_append, List.length_nil, hl, List.sum_cons,
      List.sum_nil, List.length_cons]
    omega

/-- Helper: a `uuidTailMatch` hit splits the string into 37 consumed
characters and the looked-ahead `.ipynb` tail. -/
theorem uuidTailMatch_decomp :
    ∀ s : List Char, uuidTailMatch s = true →
      ∃ u t, s = u ++ t ∧ u.length = 37 ∧
        (t = (".ipynb".toList) ∨ t = (".ipynb\n".toList)) := by
  intro s h
  unfold uuidTailMatch at h
  cases hc : uuidChain s with
  | none => rw [hc] at h; simp at h
  | some rest =>
    rw [hc] at h
    have h2 : rest = (".ipynb".toList) ∨ rest = (".ipynb\n".toList) := by
      simpa using h
    obtain ⟨w, hw, hl⟩ := runSegs_decomp [8, 4, 4, 4, 12] s rest hc
    refine ⟨w, rest, hw, ?_, h2⟩
    simp only [hl, List.sum_cons, List.sum_nil, List.length_cons,
      List.length_nil]
    omega

/-- Helper: `stripUuid` removes a UUID-shaped suffix sitting immediately
before a final `.ipynb`, wherever it sits. -/
theorem stripUuid_strips :
    ∀ (p u : List Char), uuidLike u = true →
      stripUuid (p ++ u ++ (".ipynb".toList)) = p ++ (".ipynb".toList) := by
  intro p u hu
  induction p with
  | nil =>
    simp only [List.nil_append]
    have hne : u ≠ [] := by
      intro h0
      have h37 := uuidLike_length u hu
      rw [h0] at h37
      simp at h37
    cases u with
    | nil => exact absurd rfl hne
    | cons c u2 =>
      have hchain : uuidChain ((c :: u2) ++ (".ipynb".toList)) =
          some (".ipynb".toList) := uuidLike_tail _ hu _
      have htm : uuidTailMatch ((c :: u2) ++ (".ipynb".toList)) = true := by
        unfold uuidTailMatch
        rw [hchain]
        simp
      have hne2 : endsWithL ("\n".toList)
          (c :: (u2 ++ (".ipynb".toList))) = false :=
        not_endsWith_newline_ipynb (c :: u2)
      show stripUuid (c :: (u2 ++ (".ipynb".toList))) = (".ipynb".toList)
      rw [stripUuid, if_pos (by exact htm)]
      rw [jvscKeptTail, if_neg (by rw [hne2]; exact Bool.false_ne_true)]
  | cons a p ih =>
    show stripUuid (a :: (p ++ u ++ (".ipynb".toList))) =
      a :: (p ++ (".ipynb".toList))
    have hu37 := uuidLike_length u hu
    have hno : uuidTailMatch (a :: (p ++ u ++ (".ipynb".toList))) =
        false := by
      cases htm : uuidTailMatch (a :: (p ++ u ++ (".ipynb".toList))) with
      | false => rfl
      | true =>
        exfalso
        obtain ⟨w, t, hw, hl, ht⟩ := uuidTailMatch_decomp _ htm
        cases ht with
        | inl h6 =>
          subst h6
          have hlen := congrArg List.length hw
          have h6l : (".ipynb".toList).length = 6 := rfl
          simp only [List.length_cons, List.length_append, h6l, hl,
            hu37] at hlen
          omega
        | inr h7 =>
          subst h7
          have h2 : (a :: (p ++ u)) ++ (".ipynb".toList) =
              w ++ (".ipynb\n".toList) := hw
          have h3 : (".ipynb\n".toList) = (".ipynb".toList) ++ ['\n'] := rfl
          exact no_newline_suffix_of_ipynb (a :: (p ++ u))
            (w ++ (".ipynb".toList))
            (by rw [h2, h3, ← List.append_assoc])
    rw [stripUuid, if_neg (by rw [hno]; exact Bool.false_ne_true), ih]

/-- Helper: the backslash normalization stage removes every backslash,
replacing each with `/` in place and touching nothing else. -/
theorem backslashToSlash_spec :
    (∀ v : List Char, '\\' ∉ backslashToSlash v) ∧
    (∀ v : List Char, (∀ c ∈ v, c ≠ '\\') → backslashToSlash v = v) ∧
    (∀ a b : List Char, backslashToSlash (a ++ '\\' :: b) =
      backslashToSlash a ++ '/' :: backslashToSlash b) := by
  refine ⟨?_, ?_, ?_⟩
  · intro v hmem
    unfold backslashToSlash at hmem
    obtain ⟨c, hc, heq⟩ := List.mem_map.mp hmem
    by_cases h : c = '\\'
    · rw [if_pos h] at heq
      exact absurd heq (by decide)
    · rw [if_neg h] at heq
      exact h heq
  · intro v hv
    induction v with
    | nil => rfl
    | cons c cs ih =>
      unfold backslashToSlash
      simp only [List.map_cons]
      rw [if_neg (hv c (by simp))]
      have ih' := ih (fun x hx => hv x (by simp [hx]))
      unfold backslashToSlash at ih'
      rw [ih']
  · intro a b
    unfold backslashToSlash
    simp

/-- Claim C7: a session with path `notebook-jvsc-abc123.ipynb` gets
`notebook.ipynb` in its matchable string set; normalization rewrites each
backslash to `/` (and only those), strips exactly one trailing
`-jvsc-<opaque>` chunk immediately before a final `.ipynb`, strips a
trailing UUID-shaped (case-insensitive) suffix immediately before a final
`.ipynb`, and the normalized variant of both the `path` and the `name`
field enters the matchable string set. -/
theorem c7_session_normalization :
    (∀ (kf : KernelField) (nm : Option (List Char)),
      ("notebook.ipynb".toList) ∈
        sessionStrings
          ⟨kf, some ("notebook-jvsc-abc123.ipynb".toList), nm⟩) ∧
    normalizeSessionValue
        ("nb-123e4567-e89b-12d3-a456-426614174000.ipynb".toList) =
      ("nb.ipynb".toList) ∧
    (∀ v : List Char, '\\' ∉ backslashToSlash v) ∧
    (∀ v : List Char, (∀ c ∈ v, c ≠ '\\') → backslashToSlash v = v) ∧
    (∀ a b : List Char, backslashToSlash (a ++ '\\' :: b) =
      backslashToSlash a ++ '/' :: backslashToSlash b) ∧
    (∀ v : List Char, stripJvsc v = v ∨
      ∃ p o t, v = p ++ ("-jvsc-".toList) ++ o ++ t ∧ o ≠ [] ∧
        (∀ c ∈ o, c ≠ '.') ∧
        (t = (".ipynb".toList) ∨ t = (".ipynb\n".toList)) ∧
        stripJvsc v = p ++ t) ∧
    (∀ p u : List Char, uuidLike u = true →
      stripUuid (p ++ u ++ (".ipynb".toList)) = p ++ (".ipynb".toList)) ∧
    (∀ (p : List Char) (kf : KernelField) (nm : Option (List Char)),
      p ≠ [] → normalizeSessionValue p ≠ [] →
      normalizeSessionValue p ∈ sessionStrings ⟨kf, some p, nm⟩) ∧
    (∀ (n : List Char) (kf : KernelField) (pth : Option (List Char)),
      n ≠ [] → normalizeSessionValue n ≠ [] →
      normalizeSessionValue n ∈ sessionStrings ⟨kf, pth, some n⟩) := by
  refine ⟨?_, by decide, backslashToSlash_spec.1, backslashToSlash_spec.2.1,
    backslashToSlash_spec.2.2, stripJvsc_spec, stripUuid_strips, ?_, ?_⟩
  · intro kf nm
    show ("notebook.ipynb".toList) ∈
      fieldStrings (some ("notebook-jvsc-abc123.ipynb".toList)) ++
        fieldStrings nm
    exact List.mem_append_left _ (by decide)
  · intro p kf nm hp hn
    show normalizeSessionValue p ∈
      fieldStrings (some p) ++ fieldStrings nm
    apply List.mem_append_left
    simp only [fieldStrings]
    rw [if_neg (by simpa [List.isEmpty_iff] using hp)]
    apply List.mem_filter.mpr
    refine ⟨by simp, ?_⟩
    simpa [List.isEmpty_iff] using hn
  · intro n kf pth hp hn
    show normalizeSessionValue n ∈
      fieldStrings pth ++ fieldStrings (some n)
    apply List.mem_append_right
    simp only [fieldStrings]
    rw [if_neg (by simpa [List.isEmpty_iff] using hp)]
    apply List.mem_filter.mpr
    refine ⟨by simp, ?_⟩
    simpa [List.isEmpty_iff] using hn

/-- Witness for C7's conditional clauses at concrete inputs. -/
theorem c7_session_normalization_witness :
    normalizeSessionValue ("dir/nb.ipynb".toList) ∈
      sessionStrings ⟨KernelField.dict none, some ("dir/nb.ipynb".toList),
        none⟩ ∧
    backslashToSlash ("ab".toList) = ("ab".toList) ∧
    stripUuid (("nb".toList) ++
        ("-123e4567-e89b-12d3-a456-426614174000".toList) ++
        (".ipynb".toList)) =
      ("nb".toList) ++ (".ipynb".toList) := by
  refine ⟨?_, ?_, ?_⟩
  · exact c7_session_normalization.2.2.2.2.2.2.2.1 ("dir/nb.ipynb".toList)
      (KernelField.dict none) none (by decide) (by decide)
  · exact c7_session_normalization.2.2.2.1 ("ab".toList) (by decide)
  · exact c7_session_normalization.2.2.2.2.2.2.1 ("nb".toList)
      ("-123e4567-e89b-12d3-a456-426614174000".toList) (by decide)
